import Mathlib

/-!
Verification of the LongEntry-Marketscanner backtest / analytics core.

This file gives a shallow embedding, over exact rationals, of the engine code in
`backend/app/engines/backtest.py`, `backend/app/engines/analytics.py` and the
ranking logic in `backend/app/routers/config.py`, and proves (or refutes)
the specification claims about it.

Modelling conventions:
* Python floats are modelled as `ℚ` (exact arithmetic); `round(x, d)` is
  modelled as decimal rounding to `d` places (`roundTo`).
* Hours and calendar dates are modelled as integers; `numpy` timestamps are
  modelled as integer minutes, so one H1 candle spans 60 model time units.
* The simulator additionally records a ghost log of closed trades (exit kind,
  realized pnl percentage, entry price); the aggregate statistics are computed
  from the state exactly as in the source.
-/

namespace MarketScanner

/-- Decimal rounding to `d` places, the model of Python `round(x, d)`. -/
def roundTo (d : ℕ) (x : ℚ) : ℚ := (round (x * (10 : ℚ) ^ d) : ℚ) / (10 : ℚ) ^ d

/-! ## Bars (the columnar arrays prepared by `_prepare_arrays`) -/

/-- One H1 price bar: the columns produced by `_prepare_arrays`
(`open` is `open_` since `open` is reserved in Lean); `open_time` is the
bar's timestamp in minutes. -/
structure Bar where
  open_ : ℚ
  high : ℚ
  low : ℚ
  close : ℚ
  hour : ℤ
  date : ℤ
  open_time : ℤ
deriving DecidableEq, Repr

/-- One M5 price bar, as prepared by `_prepare_m5_arrays`. -/
structure M5Bar where
  open_ : ℚ
  high : ℚ
  low : ℚ
  close : ℚ
  open_time : ℤ
deriving DecidableEq, Repr

/-- Result of the M5 drill-down: which level was touched first. -/
inductive Resolution
  | sl
  | tp
deriving DecidableEq, Repr

/-- Chronological walk through M5 candles looking for the first SL/TP hit
(the loop body of `_resolve_ambiguity_with_m5`). -/
def m5_first_hit (sl_price tp_price : ℚ) : List M5Bar → Option Resolution
  | [] => none
  | b :: rest =>
    if b.low ≤ sl_price ∧ tp_price ≤ b.high then some Resolution.sl
    else if b.low ≤ sl_price then some Resolution.sl
    else if tp_price ≤ b.high then some Resolution.tp
    else m5_first_hit sl_price tp_price rest

/-- `_resolve_ambiguity_with_m5`: drill into the M5 candles covering the same
hour (60 model minutes) to decide which of SL/TP was hit first.  The
`entry_price` and `half_spread` arguments are passed by the source but unused. -/
def _resolve_ambiguity_with_m5 (m5_arrays : Option (List M5Bar)) (h1_open_time : ℤ)
    (sl_price tp_price _entry_price _half_spread : ℚ) : Option Resolution :=
  match m5_arrays with
  | none => none
  | some m5 =>
    let inWindow := m5.filter fun b =>
      decide (h1_open_time ≤ b.open_time ∧ b.open_time < h1_open_time + 60)
    m5_first_hit sl_price tp_price inWindow

/-! ## The trade simulator (`simulate_trades`) -/

/-- How a simulated trade was closed. -/
inductive ExitKind
  | gapDown
  | gapUp
  | bothSL
  | bothTP
  | slOnly
  | tpOnly
  | endOfData
deriving DecidableEq, Repr

/-- Ghost record of one closed trade: exit kind, realized pnl percentage and
the entry price of the position that was closed. -/
structure Trade where
  kind : ExitKind
  pnl : ℚ
  entryPrice : ℚ
deriving DecidableEq, Repr

/-- The mutable state of the `simulate_trades` loop, plus the ghost trade log. -/
structure SimState where
  wins : ℕ
  losses : ℕ
  gross_profit : ℚ
  gross_loss : ℚ
  equity : ℚ
  peak_equity : ℚ
  max_drawdown : ℚ
  in_position : Bool
  entry_price : ℚ
  sl_price : ℚ
  tp_price : ℚ
  exit_spread_pct : ℚ
  entry_bar_idx : ℤ
  entered_dates : List ℤ
  trades : List Trade
deriving DecidableEq, Repr

/-- The parameters of one simulation run. -/
structure SimParams where
  entry_hour : ℤ
  sl_pct : ℚ
  tp_pct : ℚ
  spread : ℚ
  m5 : Option (List M5Bar)
deriving DecidableEq

/-- Initial simulator state (`equity = 100`, flat, nothing entered). -/
def initState : SimState :=
  { wins := 0, losses := 0, gross_profit := 0, gross_loss := 0,
    equity := 100, peak_equity := 100, max_drawdown := 0,
    in_position := false, entry_price := 0, sl_price := 0, tp_price := 0,
    exit_spread_pct := 0, entry_bar_idx := -1, entered_dates := [], trades := [] }

/-- Drawdown bookkeeping performed after each trade close: raise the peak,
compute the current peak-to-equity drawdown, keep the maximum. -/
def updateDD (s : SimState) : SimState :=
  let pk := if s.peak_equity < s.equity then s.equity else s.peak_equity
  let dd := (pk - s.equity) / pk * 100
  { s with peak_equity := pk,
           max_drawdown := if s.max_drawdown < dd then dd else s.max_drawdown }

/-- Close the open position: book a win or a loss, compound the equity,
update the drawdown, leave the position, and append the ghost trade record. -/
def closeTrade (s : SimState) (k : ExitKind) (w : Bool) (pnl : ℚ) : SimState :=
  updateDD
    { s with
      wins := if w then s.wins + 1 else s.wins,
      losses := if w then s.losses else s.losses + 1,
      gross_profit := if w then s.gross_profit + pnl else s.gross_profit,
      gross_loss := if w then s.gross_loss else s.gross_loss + |pnl|,
      equity := s.equity * (1 + pnl / 100),
      in_position := false,
      trades := s.trades ++ [⟨k, pnl, s.entry_price⟩] }

/-- Gap handling on bars strictly after the entry bar: if the bar opens at or
beyond the stop (resp. target), fill at the open price. -/
def gapCheck (p : SimParams) (j : ℕ) (b : Bar) (s : SimState) : SimState :=
  if s.entry_bar_idx < (j : ℤ) then
    if b.open_ ≤ s.sl_price then
      closeTrade s ExitKind.gapDown false
        ((b.open_ - s.entry_price) / s.entry_price * 100 - s.exit_spread_pct)
    else if s.tp_price ≤ b.open_ then
      closeTrade s ExitKind.gapUp true
        ((b.open_ - s.entry_price) / s.entry_price * 100 - s.exit_spread_pct)
    else s
  else s

/-- Intra-bar SL/TP resolution, shared by the open-position path and the
entry-bar path: on an ambiguous bar use the M5 drill-down (defaulting to SL),
otherwise close at the breached level. -/
def checkBarExit (p : SimParams) (b : Bar) (s : SimState) : SimState :=
  if b.low ≤ s.sl_price ∧ s.tp_price ≤ b.high then
    match _resolve_ambiguity_with_m5 p.m5 b.open_time s.sl_price s.tp_price
        s.entry_price (p.spread / 2) with
    | some Resolution.tp => closeTrade s ExitKind.bothTP true (p.tp_pct - s.exit_spread_pct)
    | _ => closeTrade s ExitKind.bothSL false (-p.sl_pct - s.exit_spread_pct)
  else if b.low ≤ s.sl_price then
    closeTrade s ExitKind.slOnly false (-p.sl_pct - s.exit_spread_pct)
  else if s.tp_price ≤ b.high then
    closeTrade s ExitKind.tpOnly true (p.tp_pct - s.exit_spread_pct)
  else s

/-- The state right after opening a position on bar `b` (index `j`):
entry at the bar open plus half the spread, SL/TP as percentages of entry. -/
def enterState (p : SimParams) (j : ℕ) (b : Bar) (s : SimState) : SimState :=
  let e := b.open_ + p.spread / 2
  { s with
    entered_dates := b.date :: s.entered_dates,
    entry_price := e,
    sl_price := e * (1 - p.sl_pct / 100),
    tp_price := e * (1 + p.tp_pct / 100),
    exit_spread_pct := (p.spread / 2) / e * 100,
    entry_bar_idx := (j : ℤ),
    in_position := true }

/-- Attempt to open a new position on bar `b`: only when flat, at the entry
hour, at most once per calendar date; then check the entry candle itself. -/
def tryEnter (p : SimParams) (j : ℕ) (b : Bar) (s : SimState) : SimState :=
  if s.in_position = false ∧ b.hour = p.entry_hour ∧ b.date ∉ s.entered_dates then
    checkBarExit p b (enterState p j b s)
  else s

/-- One iteration of the `simulate_trades` loop over bar `b` at index `j`. -/
def stepBar (p : SimParams) (j : ℕ) (b : Bar) (s : SimState) : SimState :=
  let s1 :=
    if s.in_position then
      let s2 := gapCheck p j b s
      if s2.in_position then checkBarExit p b s2 else s2
    else s
  tryEnter p j b s1

/-- The full bar loop of `simulate_trades`. -/
def simLoop (p : SimParams) : ℕ → SimState → List Bar → SimState
  | _, s, [] => s
  | j, s, b :: rest => simLoop p (j + 1) (stepBar p j b s) rest

/-- If a position is still open at the end of the data, force-close it at the
last bar's close price (counted as a win when the pnl is nonnegative). -/
def forceClose (lastClose : ℚ) (s : SimState) : SimState :=
  if s.in_position then
    if 0 ≤ (lastClose - s.entry_price) / s.entry_price * 100 - s.exit_spread_pct then
      closeTrade s ExitKind.endOfData true
        ((lastClose - s.entry_price) / s.entry_price * 100 - s.exit_spread_pct)
    else
      closeTrade s ExitKind.endOfData false
        ((lastClose - s.entry_price) / s.entry_price * 100 - s.exit_spread_pct)
  else s

/-- Run the whole simulation and return the final state (with ghost log). -/
def simulate_run (bars : List Bar) (p : SimParams) : SimState :=
  match bars.getLast? with
  | none => initState
  | some lb => forceClose lb.close (simLoop p 0 initState bars)

/-- The aggregate statistics returned by `simulate_trades`. -/
structure SimResult where
  total_return : ℚ
  win_rate : ℚ
  profit_factor : ℚ
  max_drawdown : ℚ
  total_trades : ℕ
  wins : ℕ
  losses : ℕ
deriving DecidableEq, Repr

/-- `_empty_result`: the zeroed result dict. -/
def _empty_result : SimResult :=
  { total_return := 0, win_rate := 0, profit_factor := 0, max_drawdown := 0,
    total_trades := 0, wins := 0, losses := 0 }

/-- `simulate_trades`: run the simulation and assemble the result statistics. -/
def simulate_trades (bars : List Bar) (p : SimParams) : SimResult :=
  if bars = [] then _empty_result
  else
    let s := simulate_run bars p
    let total_trades := s.wins + s.losses
    { total_return := roundTo 2 (s.equity - 100),
      win_rate := if 0 < total_trades
        then roundTo 1 ((s.wins : ℚ) / (total_trades : ℚ) * 100) else 0,
      profit_factor := if 0 < s.gross_loss
        then roundTo 2 (s.gross_profit / s.gross_loss) else 99,
      max_drawdown := roundTo 2 s.max_drawdown,
      total_trades := total_trades,
      wins := s.wins,
      losses := s.losses }

/-! ## The parameter sweep (`sweep_parameters`) -/

/-- `SL_GRID`: the fixed stop-loss percentage grid. -/
def SL_GRID : List ℚ := [0.3, 0.5, 0.75, 1.0, 1.25, 1.5, 2.0]

/-- `TP_GRID`: the fixed take-profit percentage grid. -/
def TP_GRID : List ℚ := [0.5, 1.0, 1.5, 2.0, 2.5, 3.0, 4.0]

/-- `SESSION_HOURS`: per-symbol liquid entry-hour window. -/
def SESSION_HOURS (symbol : String) : Option (ℤ × ℤ) :=
  if symbol = "XAUUSD" then some (9, 20)
  else if symbol = "XAGUSD" then some (9, 20)
  else if symbol = "US500" then some (10, 20)
  else if symbol = "US100" then some (10, 20)
  else if symbol = "US30" then some (10, 20)
  else if symbol = "GER40" then some (9, 17)
  else if symbol = "UK100" then some (9, 17)
  else if symbol = "FRA40" then some (9, 17)
  else if symbol = "EU50" then some (9, 17)
  else if symbol = "SPN35" then some (9, 17)
  else if symbol = "N25" then some (9, 17)
  else if symbol = "JP225" then some (2, 16)
  else if symbol = "HK50" then some (3, 16)
  else if symbol = "AUS200" then some (1, 16)
  else none

/-- `DEFAULT_SESSION`: the window used for symbols not listed above. -/
def DEFAULT_SESSION : ℤ × ℤ := (8, 20)

/-- Number of distinct values in a list (the model of pandas `nunique`). -/
def nunique {α : Type} [DecidableEq α] (l : List α) : ℕ := l.dedup.length

/-- `get_valid_entry_hours`: hours that appear on at least 50% of trading
days, restricted to the symbol's liquid session window, sorted ascending. -/
def get_valid_entry_hours (h1 : List Bar) (symbol : String) : List ℤ :=
  let total_days : ℕ := nunique (h1.map (·.date))
  let hours := (h1.map (·.hour)).dedup
  let valid := hours.filter fun h =>
    decide ((nunique ((h1.filter fun b => decide (b.hour = h)).map (·.date)) : ℚ)
      ≥ (total_days : ℚ) * (1 / 2))
  let se := (SESSION_HOURS symbol).getD DEFAULT_SESSION
  let valid := valid.filter fun h => decide (se.1 ≤ h ∧ h ≤ se.2)
  valid.insertionSort (· ≤ ·)

/-- One point of the swept grid: `(entry_hour, sl_pct, tp_pct)`. -/
structure BestCombo where
  entry_hour : ℤ
  sl_pct : ℚ
  tp_pct : ℚ
deriving DecidableEq, Repr

/-- The simulation parameters used by `sweep_parameters` for one grid point. -/
def mkSimParams (c : BestCombo) (spread : ℚ) (m5 : Option (List M5Bar)) : SimParams :=
  { entry_hour := c.entry_hour, sl_pct := c.sl_pct, tp_pct := c.tp_pct,
    spread := spread, m5 := m5 }

/-- The full grid in the iteration order of `sweep_parameters`: valid hours
(ascending), then `SL_GRID` order, then `TP_GRID` order. -/
def comboList (valid_hours : List ℤ) : List BestCombo :=
  valid_hours.flatMap fun h => SL_GRID.flatMap fun sl => TP_GRID.map fun tp => ⟨h, sl, tp⟩

/-- The best-so-far fold of `sweep_parameters`: keep the first combination
whose objective strictly beats the running best, starting from `q`. -/
def foldBest {α : Type} (f : α → ℚ) (q : ℚ) (l : List α) : Option α × ℚ :=
  l.foldl (fun acc c => if acc.2 < f c then (some c, f c) else acc) (none, q)

/-- The successful sweep output: best parameters, their simulation result,
and the number of combinations tested. -/
structure SweepResult where
  best_params : BestCombo
  results : SimResult
  combos_tested : ℕ
deriving DecidableEq, Repr

/-- `sweep_parameters`: simulate every grid combination and keep the one with
the strictly largest `total_return` (first seen wins), starting from the
sentinel best of `-999999`; `none` when no valid entry hours remain. -/
def sweep_parameters (h1 : List Bar) (spread : ℚ) (symbol : String)
    (m5 : Option (List M5Bar)) : Option SweepResult :=
  let valid_hours := get_valid_entry_hours h1 symbol
  if valid_hours = [] then none
  else
    let combos := comboList valid_hours
    let f := fun c => (simulate_trades h1 (mkSimParams c spread m5)).total_return
    match (foldBest f (-999999) combos).1 with
    | none => none
    | some c => some ⟨c, simulate_trades h1 (mkSimParams c spread m5), combos.length⟩

/-! ## Stability and backtest score -/

/-- `calculate_backtest_score`: blend of normalized return, profit factor,
win rate and drawdown, with a multiplicative stability penalty below 50. -/
def calculate_backtest_score (results : SimResult) (stability : ℚ) : ℚ :=
  let norm_return := min (max results.total_return 0) 100
  let norm_pf := min (results.profit_factor / 3) 1 * 100
  let norm_wr := results.win_rate
  let norm_dd := max 0 (100 - results.max_drawdown * 5)
  let raw := norm_return * 0.35 + norm_pf * 0.30 + norm_wr * 0.15 + norm_dd * 0.20
  let raw := if stability < 50 then raw * (stability / 100) else raw
  roundTo 1 (max 0 (min 100 raw))

/-- The backtest score exactly as the specification words it, for comparison
with `calculate_backtest_score`. -/
def backtestScoreSpec (results : SimResult) (stability : ℚ) : ℚ :=
  let blend := (min (max results.total_return 0) 100) * 0.35
    + (min (results.profit_factor / 3) 1 * 100) * 0.30
    + results.win_rate * 0.15
    + (max 0 (100 - results.max_drawdown * 5)) * 0.20
  roundTo 1 (max 0 (min 100 (if stability < 50 then blend * (stability / 100) else blend)))

/-- `calculate_parameter_stability`: the stored prior optimal tuples are
fetched most-recent first with `LIMIT 8` (modelled by `take 8`); with no
history the stability is 100, otherwise the exact-match percentage. -/
def calculate_parameter_stability (history : List BestCombo) (best_params : BestCombo) : ℚ :=
  if history.take 8 = [] then 100
  else roundTo 1 (((history.take 8).countP (fun r => decide (r = best_params)) : ℚ)
    / ((history.take 8).length : ℚ) * 100)

/-! ## The composite technical score (`compute_technical_score`) -/

/-- The metric bundle consumed by `compute_technical_score`; `none` models a
missing (`None`) metric in the Python dict. -/
structure Metrics where
  symbol : String
  up_day_win_rate : Option ℚ
  avg_daily_growth : Option ℚ
  avg_daily_loss : Option ℚ
  current_price : Option ℚ
  sma_20 : Option ℚ
  sma_50 : Option ℚ
  sma_200 : Option ℚ
  rsi_14 : Option ℚ
  change_1w : Option ℚ
  change_1m : Option ℚ
  atr_14 : Option ℚ
deriving DecidableEq, Repr

/-- Win-rate sub-score: 45%-65% normalized to 0-100, neutral 50 if missing. -/
def score_win_rate (m : Metrics) : ℚ :=
  match m.up_day_win_rate with
  | some wr => max 0 (min 100 ((wr - 45) / 20 * 100))
  | none => 50

/-- Growth/loss ratio sub-score: ratio 0.5-2.0 normalized to 0-100, neutral
50 when either input is missing or the loss is zero. -/
def score_growth_loss (m : Metrics) : ℚ :=
  match m.avg_daily_growth, m.avg_daily_loss with
  | some growth, some loss =>
    if loss ≠ 0 then max 0 (min 100 ((|growth / loss| - 0.5) / 1.5 * 100))
    else 50
  | _, _ => 50

/-- Trend sub-score: +33/+33/+34 points for the current price sitting above
SMA20/SMA50/SMA200; contributions only accrue when `current_price` and the
respective SMA are present. -/
def score_trend (m : Metrics) : ℚ :=
  match m.current_price with
  | none => 0
  | some cp =>
    (match m.sma_20 with | some s => if s < cp then 33 else 0 | none => 0)
    + (match m.sma_50 with | some s => if s < cp then 33 else 0 | none => 0)
    + (match m.sma_200 with | some s => if s < cp then 34 else 0 | none => 0)

/-- RSI sub-score: peak at 52.5 inside the 40-65 band, shaped penalties
outside, neutral 50 if missing. -/
def score_rsi (m : Metrics) : ℚ :=
  match m.rsi_14 with
  | some rsi =>
    if 40 ≤ rsi ∧ rsi ≤ 65 then 100 - |rsi - 52.5| / 12.5 * 30
    else if rsi < 40 then max 0 (rsi / 40 * 70)
    else max 0 (100 - (rsi - 65) * 3)
  | none => 50

/-- Momentum sub-score: 1-week and 1-month changes (missing treated as 0),
each capped at plus or minus 5, blended 40/60 and centered at 50. -/
def score_momentum (m : Metrics) : ℚ :=
  let m1w := max (-5) (min 5 (m.change_1w.getD 0))
  let m1m := max (-5) (min 5 (m.change_1m.getD 0))
  let momentum := m1w * 0.4 + m1m * 0.6
  max 0 (min 100 (50 + momentum * 10))

/-- Asset-class-specific ATR% sweet-spot bounds `(lo, hi, mid)`. -/
def volBounds (symbol : String) : ℚ × ℚ × ℚ :=
  if symbol = "XAUUSD" ∨ symbol = "XAGUSD" then (0.3, 1.2, 0.75)
  else if symbol = "JP225" ∨ symbol = "HK50" ∨ symbol = "AUS200" then (0.4, 1.8, 1.1)
  else if symbol ∈ ["TSLA", "NVDA", "BABA", "ZM", "NFLX"] then (1.0, 4.0, 2.5)
  else if symbol ∈ ["AAPL", "AMZN", "GOOG", "META", "MSFT", "BAC", "V", "PFE",
      "T", "WMT", "AIRF", "ALVG", "BAYGn", "DBKGn", "IBE",
      "LVMH", "RACE", "VOWG_p"] then (0.5, 2.5, 1.5)
  else (0.5, 2.0, 1.25)

/-- Volatility sub-score: reward an asset-class-specific ATR% sweet spot,
neutral 50 when ATR or the current price is missing (or the price is 0). -/
def score_volatility (m : Metrics) : ℚ :=
  match m.atr_14, m.current_price with
  | some atr, some current =>
    if 0 < current then
      let atr_pct := atr / current * 100
      let b := volBounds m.symbol
      if b.1 ≤ atr_pct ∧ atr_pct ≤ b.2.1 then
        100 - |atr_pct - b.2.2| / ((b.2.1 - b.1) / 2) * 30
      else if atr_pct < b.1 then atr_pct / b.1 * 70
      else max 0 (100 - (atr_pct - b.2.1) * 25)
    else 50
  | _, _ => 50

/-- `compute_technical_score`: the weighted average of the six sub-scores,
clamped to [0,100] and rounded to one decimal. -/
def compute_technical_score (m : Metrics) : ℚ :=
  let total := score_win_rate m * 0.20 + score_growth_loss m * 0.15
    + score_trend m * 0.25 + score_rsi m * 0.15
    + score_momentum m * 0.15 + score_volatility m * 0.10
  roundTo 1 (max 0 (min 100 total))

/-! ## Ranking and activation -/

/-- One `weekly_analysis` row as seen by the ranking code. -/
structure RankRow where
  symbol : String
  final_score : ℚ
  is_manually_overridden : Bool
  is_active : Bool
  rank : ℕ
deriving DecidableEq, Repr

/-- Order the rows by `final_score` descending (the `ORDER BY final_score
DESC` of the router query, and the stable descending sort of
`run_full_analysis`). -/
def sortByScoreDesc (l : List RankRow) : List RankRow :=
  l.insertionSort fun a b => b.final_score ≤ a.final_score

/-- The update loop of `_apply_ranking_for_category`: overridden rows are
skipped (keep their state), the others take the next auto slot in score
order subject to the minimum score. -/
def rankGo (min_score : ℚ) (auto_slots : ℕ) : ℕ → List RankRow → List RankRow
  | _, [] => []
  | idx, r :: rest =>
    if r.is_manually_overridden then r :: rankGo min_score auto_slots idx rest
    else { r with is_active := decide (idx < auto_slots ∧ min_score ≤ r.final_score) }
      :: rankGo min_score auto_slots (idx + 1) rest

/-- `_apply_ranking_for_category`: auto slots are `max_active` minus the
count of manually-overridden active rows; fill them by rank order from the
non-overridden rows, preserving every overridden row's state. -/
def _apply_ranking_for_category (max_active : ℕ) (min_score : ℚ)
    (table : List RankRow) : List RankRow :=
  let rows := sortByScoreDesc table
  let manual_active := rows.countP fun r => r.is_manually_overridden && r.is_active
  rankGo min_score (max_active - manual_active) 0 rows

/-- The activation loop of `run_full_analysis` combined with the
`store_analysis` upsert: every row (overridden or not) is ranked and given
the computed `rank_idx < max_active` activation, but the stored `is_active`
of a manually-overridden row keeps its previous value (the SQL `CASE`). -/
def rankWalk (max_active : ℕ) (min_score : ℚ) : ℕ → List RankRow → List RankRow
  | _, [] => []
  | idx, r :: rest =>
    { r with
      rank := idx + 1,
      is_active := if r.is_manually_overridden then r.is_active
        else decide (idx < max_active ∧ min_score ≤ r.final_score) }
      :: rankWalk max_active min_score (idx + 1) rest

/-- The weekly ranking phase of `run_full_analysis` for one category pool,
as stored in the database. -/
def runWeeklyRanking (max_active : ℕ) (min_score : ℚ) (pool : List RankRow) : List RankRow :=
  rankWalk max_active min_score 0 (sortByScoreDesc pool)

/-! ## Concrete inputs used by the scenario conjuncts, counterexamples and
witnesses -/

/-- A single bar whose hour (0) differs from the entry hour used with it. -/
def noMatchBars : List Bar := [⟨1, 1, 1, 1, 0, 0, 0⟩]

/-- Parameters with entry hour 1 (no bar of `noMatchBars` matches). -/
def noMatchParams : SimParams := ⟨1, 1, 1, 0, none⟩

/-- A flat-price series whose single (entry) bar breaches only the target:
open/low/close 100, high 103, hour 9. -/
def flatBars : List Bar := [⟨100, 103, 100, 100, 9, 0, 0⟩]

/-- Parameters for the simple-win scenario: entry hour 9, SL 1%, TP 2%,
spread 1 (entry price 100.5, target 102.51, stop 99.495). -/
def flatParams : SimParams := ⟨9, 1, 2, 1, none⟩

/-- One flat bar at hour 9; with spread 0 every grid combination survives the
bar and is force-closed at the same price, so every total return is 0. -/
def oneBar : List Bar := [⟨100, 100, 100, 100, 9, 0, 0⟩]

/-- An adversarial series for `sweep_parameters` with spread 1000: the only
valid entry hour is 9 (hour 21 is outside the default session window); the
day-0 entry is stopped out on its own bar losing almost the whole equity
(half-spread cost near 100%), leaving a small negative equity, and the day-1
entry is then closed by a huge upward gap, multiplying the negative equity
far below the `-999999` sentinel for every grid combination. -/
def crashBars : List Bar :=
  [⟨1, 1, 1, 1, 9, 0, 0⟩,
   ⟨1000000000, 1000000000, 998000000, 1000000000, 9, 1, 1440⟩,
   ⟨1000000000000000000, 1000000000000000000, 1000000000000000000,
    1000000000000000000, 21, 1, 2160⟩]

/-- A metrics bundle with every sub-metric missing. -/
def allMissing : Metrics :=
  ⟨"", none, none, none, none, none, none, none, none, none, none, none⟩

/-- Ranking pool exposing the slot-count divergence: instrument A is pinned
inactive by a manual override despite the top score; B is not overridden and
clears the minimum score. -/
def overridePool : List RankRow :=
  [⟨"A", 90, true, false, 0⟩, ⟨"B", 80, false, false, 0⟩]

/-- A two-instrument pool with no overrides, used to witness monotonic
activation. -/
def plainPool : List RankRow :=
  [⟨"A", 90, false, false, 0⟩, ⟨"B", 80, false, false, 0⟩]

/-- A parameter-tuple history with one matching and one differing week. -/
def historySample : List BestCombo := [⟨9, 1, 2⟩, ⟨10, 1, 2⟩]

/-! ## Predicates used by the simulator invariants -/

/-- A well-formed bar for the loss-bound analysis: positive open price and a
close at or above the low. -/
def GoodBar (b : Bar) : Prop := 0 < b.open_ ∧ b.low ≤ b.close

/-- While a position is open, the stored exit-spread percentage is the
half-spread as a percentage of the entry price. -/
def SpreadInv (p : SimParams) (s : SimState) : Prop :=
  s.in_position = true → s.exit_spread_pct = p.spread / 2 / s.entry_price * 100

/-- While a position is open, the entry price is positive and the SL/TP
prices and exit-spread percentage are the declared functions of it. -/
def PosInv (p : SimParams) (s : SimState) : Prop :=
  s.in_position = true →
    0 < s.entry_price ∧
    s.sl_price = s.entry_price * (1 - p.sl_pct / 100) ∧
    s.tp_price = s.entry_price * (1 + p.tp_pct / 100) ∧
    s.exit_spread_pct = p.spread / 2 / s.entry_price * 100

/-- A single-level in-bar close realizes exactly the nominal percentage
minus the proportional exit spread cost of its own entry price. -/
def TradeExact (p : SimParams) (t : Trade) : Prop :=
  (t.kind = ExitKind.tpOnly → t.pnl = p.tp_pct - p.spread / 2 / t.entryPrice * 100) ∧
  (t.kind = ExitKind.slOnly → t.pnl = -p.sl_pct - p.spread / 2 / t.entryPrice * 100)

/-- Every close other than a downward gap fill loses no more than
`sl_pct` plus the proportional exit spread cost. -/
def TradeBound (p : SimParams) (t : Trade) : Prop :=
  t.kind ≠ ExitKind.gapDown →
    -(p.sl_pct + p.spread / 2 / t.entryPrice * 100) ≤ t.pnl

/-- The running best of a strict-improvement scan seeded with `b`:
the first element attaining the maximum (ties keep the earlier element). -/
def champ {α : Type} (f : α → ℚ) : α → List α → α
  | b, [] => b
  | b, c :: rest => champ f (if f b < f c then c else b) rest

/-- The result dict produced when bars exist but no entry ever occurs:
all statistics zero except the no-loss profit-factor sentinel 99. -/
def noTradeResult : SimResult :=
  { total_return := 0, win_rate := 0, profit_factor := 99, max_drawdown := 0,
    total_trades := 0, wins := 0, losses := 0 }

/-! ## Basic lemmas about the simulator state -/

@[simp]
theorem closeTrade_in_position (s : SimState) (k : ExitKind) (w : Bool) (pnl : ℚ) :
    (closeTrade s k w pnl).in_position = false := by
  cases w <;> rfl

@[simp]
theorem closeTrade_trades (s : SimState) (k : ExitKind) (w : Bool) (pnl : ℚ) :
    (closeTrade s k w pnl).trades = s.trades ++ [⟨k, pnl, s.entry_price⟩] := by
  cases w <;> rfl

@[simp]
theorem closeTrade_entry_price (s : SimState) (k : ExitKind) (w : Bool) (pnl : ℚ) :
    (closeTrade s k w pnl).entry_price = s.entry_price := by
  cases w <;> rfl

@[simp]
theorem closeTrade_sl_price (s : SimState) (k : ExitKind) (w : Bool) (pnl : ℚ) :
    (closeTrade s k w pnl).sl_price = s.sl_price := by
  cases w <;> rfl

@[simp]
theorem closeTrade_tp_price (s : SimState) (k : ExitKind) (w : Bool) (pnl : ℚ) :
    (closeTrade s k w pnl).tp_price = s.tp_price := by
  cases w <;> rfl

@[simp]
theorem closeTrade_exit_spread_pct (s : SimState) (k : ExitKind) (w : Bool) (pnl : ℚ) :
    (closeTrade s k w pnl).exit_spread_pct = s.exit_spread_pct := by
  cases w <;> rfl

@[simp]
theorem enterState_in_position (p : SimParams) (j : ℕ) (b : Bar) (s : SimState) :
    (enterState p j b s).in_position = true := rfl

@[simp]
theorem enterState_entry_price (p : SimParams) (j : ℕ) (b : Bar) (s : SimState) :
    (enterState p j b s).entry_price = b.open_ + p.spread / 2 := rfl

@[simp]
theorem enterState_sl_price (p : SimParams) (j : ℕ) (b : Bar) (s : SimState) :
    (enterState p j b s).sl_price = (b.open_ + p.spread / 2) * (1 - p.sl_pct / 100) := rfl

@[simp]
theorem enterState_tp_price (p : SimParams) (j : ℕ) (b : Bar) (s : SimState) :
    (enterState p j b s).tp_price = (b.open_ + p.spread / 2) * (1 + p.tp_pct / 100) := rfl

@[simp]
theorem enterState_exit_spread_pct (p : SimParams) (j : ℕ) (b : Bar) (s : SimState) :
    (enterState p j b s).exit_spread_pct
      = p.spread / 2 / (b.open_ + p.spread / 2) * 100 := rfl

@[simp]
theorem enterState_trades (p : SimParams) (j : ℕ) (b : Bar) (s : SimState) :
    (enterState p j b s).trades = s.trades := rfl

/-- Case analysis of the gap phase: either nothing happens, or the position
closes as a downward gap fill, or as an upward gap fill (in which case the
bar opened at or beyond the target). -/
theorem gapCheck_cases (p : SimParams) (j : ℕ) (b : Bar) (s : SimState) :
    gapCheck p j b s = s ∨
    gapCheck p j b s = closeTrade s ExitKind.gapDown false
      ((b.open_ - s.entry_price) / s.entry_price * 100 - s.exit_spread_pct) ∨
    (gapCheck p j b s = closeTrade s ExitKind.gapUp true
      ((b.open_ - s.entry_price) / s.entry_price * 100 - s.exit_spread_pct)
      ∧ s.tp_price ≤ b.open_) := by
  unfold gapCheck
  split_ifs with h1 h2 h3
  · right; left; rfl
  · right; right; exact ⟨rfl, h3⟩
  · left; rfl
  · left; rfl

/-- Case analysis of the intra-bar exit phase: either neither level was
breached and the state is unchanged, or the position closes with one of the
four in-bar exit kinds and its nominal pnl. -/
theorem checkBarExit_cases (p : SimParams) (b : Bar) (s : SimState) :
    (checkBarExit p b s = s ∧ ¬b.low ≤ s.sl_price ∧ ¬s.tp_price ≤ b.high) ∨
    checkBarExit p b s = closeTrade s ExitKind.bothTP true (p.tp_pct - s.exit_spread_pct) ∨
    checkBarExit p b s = closeTrade s ExitKind.bothSL false (-p.sl_pct - s.exit_spread_pct) ∨
    checkBarExit p b s = closeTrade s ExitKind.slOnly false (-p.sl_pct - s.exit_spread_pct) ∨
    checkBarExit p b s = closeTrade s ExitKind.tpOnly true (p.tp_pct - s.exit_spread_pct) := by
  unfold checkBarExit
  split_ifs with h1 h2 h3
  · rcases hr : _resolve_ambiguity_with_m5 p.m5 b.open_time s.sl_price s.tp_price
        s.entry_price (p.spread / 2) with _ | r
    · right; right; left; simp [hr]
    · cases r
      · right; right; left; simp [hr]
      · right; left; simp [hr]
  · right; right; right; left; rfl
  · right; right; right; right; rfl
  · left; exact ⟨rfl, h2, h3⟩

/-- The entry phase either leaves the state alone, or (from a flat state)
opens a position and immediately checks the entry candle. -/
theorem tryEnter_cases (p : SimParams) (j : ℕ) (b : Bar) (s : SimState) :
    tryEnter p j b s = s ∨
    (s.in_position = false ∧ tryEnter p j b s = checkBarExit p b (enterState p j b s)) := by
  unfold tryEnter
  split_ifs with h
  · exact Or.inr ⟨h.1, rfl⟩
  · exact Or.inl rfl

theorem tryEnter_of_in_position (p : SimParams) (j : ℕ) (b : Bar) (s : SimState)
    (h : s.in_position = true) : tryEnter p j b s = s := by
  unfold tryEnter
  rw [if_neg]
  simp [h]

/-! ## Rounding lemmas -/

@[simp]
theorem roundTo_zero (d : ℕ) : roundTo d 0 = 0 := by
  simp [roundTo]

/-- Decimal rounding is monotone. -/
theorem round_le_round (x y : ℚ) (h : x ≤ y) : round x ≤ round y := by
  rw [round_eq, round_eq]
  exact Int.floor_mono (by linarith)

/-- Rounding to one decimal keeps values inside `[0, 100]`. -/
theorem roundTo_one_bounds (x : ℚ) (h0 : 0 ≤ x) (h1 : x ≤ 100) :
    0 ≤ roundTo 1 x ∧ roundTo 1 x ≤ 100 := by
  have e : roundTo 1 x = (round (x * 10) : ℚ) / 10 := by
    unfold roundTo
    norm_num
  have hlo : round (0 : ℚ) ≤ round (x * 10) := round_le_round _ _ (by linarith)
  have hhi : round (x * 10) ≤ round ((1000 : ℤ) : ℚ) := round_le_round _ _ (by push_cast; linarith)
  rw [round_zero] at hlo
  rw [round_intCast] at hhi
  constructor
  · rw [e]
    apply div_nonneg _ (by norm_num)
    exact_mod_cast hlo
  · rw [e, div_le_iff₀ (by norm_num : (0 : ℚ) < 10)]
    calc ((round (x * 10) : ℤ) : ℚ) ≤ ((1000 : ℤ) : ℚ) := by exact_mod_cast hhi
    _ = 100 * 10 := by norm_num

/-! ## C9 — backtest score formula -/

/-- C9: `calculate_backtest_score` equals the blend
`norm_return*0.35 + norm_pf*0.30 + win_rate*0.15 + norm_dd*0.20` with
`norm_return` the total return clamped to `[0,100]`,
`norm_pf = min(profit_factor/3, 1)*100` and
`norm_dd = max(0, 100 - max_drawdown*5)`; the blend is multiplied by
`stability/100` exactly when `stability < 50`, and the result is clamped to
`[0,100]` and rounded to one decimal — i.e. it coincides with the
specification-side formula `backtestScoreSpec` on every input. -/
theorem calculate_backtest_score_eq_spec (results : SimResult) (stability : ℚ) :
    calculate_backtest_score results stability = backtestScoreSpec results stability := rfl

/-! ## C10 — result bookkeeping invariants -/

/-- C10: for every input, `simulate_trades` reports
`total_trades = wins + losses` (both counts are naturals, hence
nonnegative), and `win_rate` is `wins/total_trades*100` rounded to one
decimal when there are trades and `0` otherwise. -/
theorem simulate_trades_totals (bars : List Bar) (p : SimParams) :
    (simulate_trades bars p).total_trades
      = (simulate_trades bars p).wins + (simulate_trades bars p).losses ∧
    (simulate_trades bars p).win_rate
      = (if 0 < (simulate_trades bars p).total_trades
          then roundTo 1 (((simulate_trades bars p).wins : ℚ)
            / ((simulate_trades bars p).total_trades : ℚ) * 100)
          else 0) := by
  by_cases hb : bars = []
  · simp [simulate_trades, hb, _empty_result]
  · simp only [simulate_trades, if_neg hb]
    exact ⟨trivial, trivial⟩

/-! ## C8 — parameter stability bounds -/

/-- C8: `calculate_parameter_stability` compares this week's best tuple with
at most 8 stored prior weeks and returns the exact-match percentage: the
result is always in `[0,100]`, and with no history it is exactly `100`. -/
theorem calculate_parameter_stability_bounds (history : List BestCombo)
    (best_params : BestCombo) :
    0 ≤ calculate_parameter_stability history best_params ∧
    calculate_parameter_stability history best_params ≤ 100 ∧
    (history = [] → calculate_parameter_stability history best_params = 100) := by
  unfold calculate_parameter_stability
  split_ifs with h
  · exact ⟨by norm_num, by norm_num, fun _ => rfl⟩
  · have hlen : 0 < (history.take 8).length := List.length_pos.mpr h
    have hcount : (history.take 8).countP (fun r => decide (r = best_params))
        ≤ (history.take 8).length := List.countP_le_length _
    have hratio0 : 0 ≤ ((history.take 8).countP (fun r => decide (r = best_params)) : ℚ)
        / ((history.take 8).length : ℚ) * 100 := by positivity
    have hratio1 : ((history.take 8).countP (fun r => decide (r = best_params)) : ℚ)
        / ((history.take 8).length : ℚ) * 100 ≤ 100 := by
      have hdiv : ((history.take 8).countP (fun r => decide (r = best_params)) : ℚ)
          / ((history.take 8).length : ℚ) ≤ 1 := by
        rw [div_le_one (by exact_mod_cast hlen)]
        exact_mod_cast hcount
      nlinarith
    obtain ⟨hb0, hb1⟩ := roundTo_one_bounds _ hratio0 hratio1
    exact ⟨hb0, hb1, fun he => absurd (by simp [he]) h⟩

/-- Witness for C8 at concrete inputs: no history gives exactly 100, and a
two-week history stays inside the bounds. -/
theorem calculate_parameter_stability_bounds_witness :
    calculate_parameter_stability [] ⟨9, 1, 2⟩ = 100 ∧
    0 ≤ calculate_parameter_stability historySample ⟨9, 1, 2⟩ ∧
    calculate_parameter_stability historySample ⟨9, 1, 2⟩ ≤ 100 :=
  ⟨(calculate_parameter_stability_bounds [] ⟨9, 1, 2⟩).2.2 rfl,
   (calculate_parameter_stability_bounds historySample ⟨9, 1, 2⟩).1,
   (calculate_parameter_stability_bounds historySample ⟨9, 1, 2⟩).2.1⟩

/-! ## C1 — no bar matches the entry hour -/

theorem stepBar_init_of_no_hour (p : SimParams) (j : ℕ) (b : Bar)
    (h : b.hour ≠ p.entry_hour) : stepBar p j b initState = initState := by
  unfold stepBar tryEnter
  rw [show initState.in_position = false from rfl]
  simp [h]

theorem simLoop_init_of_no_hour (p : SimParams) :
    ∀ (bars : List Bar) (j : ℕ), (∀ b ∈ bars, b.hour ≠ p.entry_hour) →
      simLoop p j initState bars = initState := by
  intro bars
  induction bars with
  | nil => intro j _; rfl
  | cons b rest ih =>
    intro j h
    have hb := h b (List.mem_cons_self b rest)
    have hr : ∀ b' ∈ rest, b'.hour ≠ p.entry_hour := fun b' hb' => h b' (List.mem_cons_of_mem _ hb')
    show simLoop p (j + 1) (stepBar p j b initState) rest = initState
    rw [stepBar_init_of_no_hour p j b hb]
    exact ih (j + 1) hr

/-- C1 (amended): when no bar's hour equals the entry hour, no trade is ever
opened; all reported statistics are zero except that for a nonempty bar
array the profit factor is the no-loss sentinel `99` — the fully zeroed
`_empty_result` (with `profit_factor = 0`) is returned only for an empty
bar array. -/
theorem simulate_trades_no_matching_hour (bars : List Bar) (p : SimParams)
    (h : ∀ b ∈ bars, b.hour ≠ p.entry_hour) :
    simulate_trades bars p = if bars = [] then _empty_result else noTradeResult := by
  unfold simulate_trades
  split_ifs with hb
  · rfl
  · have hrun : simulate_run bars p = initState := by
      unfold simulate_run
      obtain ⟨lb, hlb⟩ := Option.isSome_iff_exists.mp
        (List.getLast?_isSome.mpr hb)
      rw [hlb, simLoop_init_of_no_hour p bars 0 h]
      rfl
    rw [hrun]
    show SimResult.mk _ _ _ _ _ _ _ = noTradeResult
    unfold noTradeResult initState
    norm_num

/-- Witness for C1 at a concrete input: a one-bar series at hour 0 simulated
with entry hour 1. -/
theorem simulate_trades_no_matching_hour_witness :
    simulate_trades noMatchBars noMatchParams
      = if noMatchBars = [] then _empty_result else noTradeResult :=
  simulate_trades_no_matching_hour noMatchBars noMatchParams (by decide)

/-- Counterexample to C1 as stated: on a nonempty series with no bar at the
entry hour, the returned profit factor is the sentinel `99`, not `0`, so the
result is not the all-zero `SimulationResult`. -/
theorem simulate_trades_no_matching_hour_counterexample :
    (∀ b ∈ noMatchBars, b.hour ≠ noMatchParams.entry_hour) ∧
    (simulate_trades noMatchBars noMatchParams).profit_factor = 99 ∧
    simulate_trades noMatchBars noMatchParams ≠ _empty_result := by
  refine ⟨by decide, by with_unfolding_all decide, by with_unfolding_all decide⟩

/-! ## C5 — neutral defaults in the technical score -/

/-- C5 (amended): the missing-input defaults of `compute_technical_score`:
missing win-rate, growth/loss, RSI and volatility inputs give the neutral
sub-score 50, and missing momentum inputs are treated as 0 which also yields
the neutral momentum score 50; however the trend sub-score is 0 — not the
neutral 50 — when `current_price` is missing (and each missing SMA simply
contributes none of its 33/33/34 points); the final score is clamped to
`[0,100]` and rounded to one decimal. -/
theorem compute_technical_score_defaults :
    (∀ m : Metrics, m.up_day_win_rate = none → score_win_rate m = 50) ∧
    (∀ m : Metrics, m.avg_daily_growth = none ∨ m.avg_daily_loss = none →
      score_growth_loss m = 50) ∧
    (∀ m : Metrics, m.rsi_14 = none → score_rsi m = 50) ∧
    (∀ m : Metrics, m.change_1w = none ∧ m.change_1m = none → score_momentum m = 50) ∧
    (∀ m : Metrics, m.atr_14 = none ∨ m.current_price = none → score_volatility m = 50) ∧
    (∀ m : Metrics, m.current_price = none → score_trend m = 0) ∧
    (∀ m : Metrics, 0 ≤ compute_technical_score m ∧ compute_technical_score m ≤ 100) := by
  refine ⟨?_, ?_, ?_, ?_, ?_, ?_, ?_⟩
  · intro m h
    simp [score_win_rate, h]
  · intro m h
    rcases h with h | h
    · simp [score_growth_loss, h]
    · rcases hg : m.avg_daily_growth with _ | g <;> simp [score_growth_loss, hg, h]
  · intro m h
    simp [score_rsi, h]
  · intro m h
    simp only [score_momentum, h.1, h.2, Option.getD_none]
    norm_num
  · intro m h
    rcases h with h | h
    · simp [score_volatility, h]
    · rcases ha : m.atr_14 with _ | a <;> simp [score_volatility, ha, h]
  · intro m h
    simp [score_trend, h]
  · intro m
    have h0 : (0 : ℚ) ≤ max 0 (min 100 (score_win_rate m * 0.20 + score_growth_loss m * 0.15
        + score_trend m * 0.25 + score_rsi m * 0.15
        + score_momentum m * 0.15 + score_volatility m * 0.10)) := le_max_left _ _
    have h1 : max 0 (min 100 (score_win_rate m * 0.20 + score_growth_loss m * 0.15
        + score_trend m * 0.25 + score_rsi m * 0.15
        + score_momentum m * 0.15 + score_volatility m * 0.10)) ≤ 100 := by
      apply max_le (by norm_num)
      exact min_le_left _ _
    exact roundTo_one_bounds _ h0 h1

/-- Witness for C5 at a concrete input: with every metric missing, the
win-rate sub-score defaults to 50 and the trend sub-score to 0. -/
theorem compute_technical_score_defaults_witness :
    score_win_rate allMissing = 50 ∧ score_trend allMissing = 0 :=
  ⟨compute_technical_score_defaults.1 allMissing rfl,
   compute_technical_score_defaults.2.2.2.2.2.1 allMissing rfl⟩

/-- Counterexample to C5 as stated: with every sub-metric missing the trend
sub-score used in the weighted average is 0, not the neutral 50, and the
final technical score is 37.5 rather than the all-neutral 50. -/
theorem compute_technical_score_missing_counterexample :
    allMissing.current_price = none ∧
    score_trend allMissing = 0 ∧ score_trend allMissing ≠ 50 ∧
    compute_technical_score allMissing = 37.5 := by
  refine ⟨rfl, rfl, by norm_num [score_trend, allMissing], ?_⟩
  with_unfolding_all decide

/-! ## C6 — manual overrides and auto slots -/

/-- C6: at a pool with `max_active = 1` and minimum score 50, containing A
(score 90, manually overridden, pinned inactive) and B (score 80, not
overridden): the router's `_apply_ranking_for_category` preserves A's pinned
state and fills the single auto slot (1 manual-active pins = 0, so 1 slot)
with B, the best non-overridden instrument; the weekly `run_full_analysis`
ranking instead computes raw `rank_idx < max_active` activation over the
whole pool, so the overridden A consumes the only slot and B is stored
inactive — the claimed slot arithmetic does not hold for the weekly run. -/
theorem ranking_slot_divergence :
    ((_apply_ranking_for_category 1 50 overridePool).map fun r => (r.symbol, r.is_active))
      = [("A", false), ("B", true)] ∧
    ((runWeeklyRanking 1 50 overridePool).map fun r => (r.symbol, r.is_active))
      = [("A", false), ("B", false)] := by
  constructor
  · with_unfolding_all decide
  · with_unfolding_all decide

/-! ## C7 — monotonic activation -/

theorem rankWalk_length (ma : ℕ) (ms : ℚ) :
    ∀ (l : List RankRow) (idx : ℕ), (rankWalk ma ms idx l).length = l.length := by
  intro l
  induction l with
  | nil => intro idx; rfl
  | cons r rest ih =>
    intro idx
    show (rankWalk ma ms (idx + 1) rest).length + 1 = rest.length + 1
    rw [ih (idx + 1)]

theorem rankWalk_get (ma : ℕ) (ms : ℚ) :
    ∀ (l : List RankRow) (idx k : ℕ) (hk : k < (rankWalk ma ms idx l).length)
      (hk2 : k < l.length),
      (rankWalk ma ms idx l).get ⟨k, hk⟩ =
        { l.get ⟨k, hk2⟩ with
          rank := idx + k + 1,
          is_active := if (l.get ⟨k, hk2⟩).is_manually_overridden
            then (l.get ⟨k, hk2⟩).is_active
            else decide (idx + k < ma ∧ ms ≤ (l.get ⟨k, hk2⟩).final_score) } := by
  intro l
  induction l with
  | nil => intro idx k hk hk2; exact absurd hk2 (by simp)
  | cons r rest ih =>
    intro idx k hk hk2
    cases k with
    | zero => simp [rankWalk]
    | succ k =>
      have hk' : k < (rankWalk ma ms (idx + 1) rest).length := by
        have := hk
        simp only [rankWalk, List.length_cons] at this
        omega
      have hk2' : k < rest.length := by
        simpa using Nat.lt_of_succ_lt_succ hk2
      have step : (rankWalk ma ms idx (r :: rest)).get ⟨k + 1, hk⟩
          = (rankWalk ma ms (idx + 1) rest).get ⟨k, hk'⟩ := rfl
      rw [step, ih (idx + 1) k hk' hk2']
      have harith : idx + 1 + k = idx + (k + 1) := by omega
      have hget : (r :: rest).get ⟨k + 1, hk2⟩ = rest.get ⟨k, hk2'⟩ := rfl
      rw [hget, harith]

/-- The descending sort really is sorted by score. -/
theorem sortByScoreDesc_sorted (l : List RankRow) :
    (sortByScoreDesc l).Sorted fun a b => b.final_score ≤ a.final_score := by
  haveI ht : IsTotal RankRow (fun a b => b.final_score ≤ a.final_score) :=
    ⟨fun a b => le_total b.final_score a.final_score⟩
  haveI htr : IsTrans RankRow (fun a b => b.final_score ≤ a.final_score) :=
    ⟨fun _ _ _ h1 h2 => le_trans h2 h1⟩
  exact List.sorted_insertionSort _ l

/-- C7: after the weekly ranking phase, for two pool positions `i < j`
(rank `i+1` < rank `j+1`), if the instrument at the lower rank `j` is stored
active and neither instrument is manually overridden, then the instrument at
the better rank `i` is stored active as well: automatic activation never
inverts rank order. -/
theorem runWeeklyRanking_monotonic (max_active : ℕ) (min_score : ℚ) (pool : List RankRow)
    (i j : ℕ) (hij : i < j) (hj : j < (runWeeklyRanking max_active min_score pool).length)
    (hoi : ((runWeeklyRanking max_active min_score pool).get
      ⟨i, Nat.lt_trans hij hj⟩).is_manually_overridden = false)
    (hoj : ((runWeeklyRanking max_active min_score pool).get
      ⟨j, hj⟩).is_manually_overridden = false)
    (hbj : ((runWeeklyRanking max_active min_score pool).get ⟨j, hj⟩).is_active = true) :
    ((runWeeklyRanking max_active min_score pool).get
      ⟨i, Nat.lt_trans hij hj⟩).is_active = true := by
  have hi : i < (runWeeklyRanking max_active min_score pool).length := Nat.lt_trans hij hj
  have hlen : (runWeeklyRanking max_active min_score pool).length
      = (sortByScoreDesc pool).length := rankWalk_length max_active min_score _ 0
  have hj2 : j < (sortByScoreDesc pool).length := hlen ▸ hj
  have hi2 : i < (sortByScoreDesc pool).length := hlen ▸ hi
  have hgj0 := rankWalk_get max_active min_score (sortByScoreDesc pool) 0 j hj hj2
  have hgi0 := rankWalk_get max_active min_score (sortByScoreDesc pool) 0 i hi hi2
  rw [show (0 : ℕ) + j = j from by omega] at hgj0
  rw [show (0 : ℕ) + i = i from by omega] at hgi0
  have hgj : (runWeeklyRanking max_active min_score pool).get ⟨j, hj⟩
      = { (sortByScoreDesc pool).get ⟨j, hj2⟩ with
          rank := j + 1,
          is_active := if ((sortByScoreDesc pool).get ⟨j, hj2⟩).is_manually_overridden
            then ((sortByScoreDesc pool).get ⟨j, hj2⟩).is_active
            else decide (j < max_active
              ∧ min_score ≤ ((sortByScoreDesc pool).get ⟨j, hj2⟩).final_score) } := hgj0
  have hgi : (runWeeklyRanking max_active min_score pool).get ⟨i, Nat.lt_trans hij hj⟩
      = { (sortByScoreDesc pool).get ⟨i, hi2⟩ with
          rank := i + 1,
          is_active := if ((sortByScoreDesc pool).get ⟨i, hi2⟩).is_manually_overridden
            then ((sortByScoreDesc pool).get ⟨i, hi2⟩).is_active
            else decide (i < max_active
              ∧ min_score ≤ ((sortByScoreDesc pool).get ⟨i, hi2⟩).final_score) } := hgi0
  have hovj : ((sortByScoreDesc pool).get ⟨j, hj2⟩).is_manually_overridden = false := by
    rw [hgj] at hoj
    exact hoj
  have hovi : ((sortByScoreDesc pool).get ⟨i, hi2⟩).is_manually_overridden = false := by
    rw [hgi] at hoi
    exact hoi
  have hactj : j < max_active
      ∧ min_score ≤ ((sortByScoreDesc pool).get ⟨j, hj2⟩).final_score := by
    rw [hgj] at hbj
    have hbj2 : (if ((sortByScoreDesc pool).get ⟨j, hj2⟩).is_manually_overridden = true
        then ((sortByScoreDesc pool).get ⟨j, hj2⟩).is_active
        else decide (j < max_active
          ∧ min_score ≤ ((sortByScoreDesc pool).get ⟨j, hj2⟩).final_score)) = true := hbj
    rw [hovj] at hbj2
    simpa using hbj2
  have hscore : ((sortByScoreDesc pool).get ⟨j, hj2⟩).final_score
      ≤ ((sortByScoreDesc pool).get ⟨i, hi2⟩).final_score :=
    (sortByScoreDesc_sorted pool).rel_get_of_lt (show (⟨i, hi2⟩ : Fin _) < ⟨j, hj2⟩ from hij)
  rw [hgi]
  show (if ((sortByScoreDesc pool).get ⟨i, hi2⟩).is_manually_overridden = true
      then ((sortByScoreDesc pool).get ⟨i, hi2⟩).is_active
      else decide (i < max_active
        ∧ min_score ≤ ((sortByScoreDesc pool).get ⟨i, hi2⟩).final_score)) = true
  rw [hovi]
  simp only [Bool.false_eq_true, if_false, decide_eq_true_eq]
  exact ⟨Nat.lt_trans hij hactj.1, le_trans hactj.2 hscore⟩

/-- Witness for C7: in the plain two-instrument pool with two slots, rank 2
is active and not overridden, so rank 1 is active. -/
theorem runWeeklyRanking_monotonic_witness :
    ((runWeeklyRanking 2 50 plainPool).get
      ⟨0, by with_unfolding_all decide⟩).is_active = true :=
  runWeeklyRanking_monotonic 2 50 plainPool 0 1 (by omega)
    (by with_unfolding_all decide) (by with_unfolding_all decide)
    (by with_unfolding_all decide) (by with_unfolding_all decide)

/-! ## C2 — exact pnl of single-level in-bar exits -/

theorem TradeExact_of_ne (p : SimParams) (t : Trade)
    (h1 : t.kind ≠ ExitKind.tpOnly) (h2 : t.kind ≠ ExitKind.slOnly) : TradeExact p t :=
  ⟨fun hk => absurd hk h1, fun hk => absurd hk h2⟩

theorem TradeExact_close (p : SimParams) (l : List Trade)
    (htr : ∀ t ∈ l, TradeExact p t) (t : Trade) (ht : TradeExact p t) :
    ∀ x ∈ l ++ [t], TradeExact p x := by
  intro x hx
  rcases List.mem_append.mp hx with h | h
  · exact htr x h
  · have hx2 := List.mem_singleton.mp h
    subst hx2
    exact ht

theorem gapCheck_exact (p : SimParams) (j : ℕ) (b : Bar) (s : SimState)
    (htr : ∀ t ∈ s.trades, TradeExact p t) :
    (∀ t ∈ (gapCheck p j b s).trades, TradeExact p t) ∧
    ((gapCheck p j b s).in_position = true → gapCheck p j b s = s) := by
  rcases gapCheck_cases p j b s with he | he | ⟨he, _⟩ <;> rw [he]
  · exact ⟨htr, fun _ => rfl⟩
  · refine ⟨?_, fun hpos => by simp at hpos⟩
    rw [closeTrade_trades]
    exact TradeExact_close p _ htr _ (TradeExact_of_ne p _ (by simp) (by simp))
  · refine ⟨?_, fun hpos => by simp at hpos⟩
    rw [closeTrade_trades]
    exact TradeExact_close p _ htr _ (TradeExact_of_ne p _ (by simp) (by simp))

theorem checkBarExit_exact (p : SimParams) (b : Bar) (s : SimState)
    (hspread : s.exit_spread_pct = p.spread / 2 / s.entry_price * 100)
    (htr : ∀ t ∈ s.trades, TradeExact p t) :
    (∀ t ∈ (checkBarExit p b s).trades, TradeExact p t) ∧
    SpreadInv p (checkBarExit p b s) := by
  rcases checkBarExit_cases p b s with ⟨he, _, _⟩ | he | he | he | he <;> rw [he]
  · exact ⟨htr, fun _ => hspread⟩
  · refine ⟨?_, fun hpos => by simp at hpos⟩
    rw [closeTrade_trades]
    exact TradeExact_close p _ htr _ (TradeExact_of_ne p _ (by simp) (by simp))
  · refine ⟨?_, fun hpos => by simp at hpos⟩
    rw [closeTrade_trades]
    exact TradeExact_close p _ htr _ (TradeExact_of_ne p _ (by simp) (by simp))
  · refine ⟨?_, fun hpos => by simp at hpos⟩
    rw [closeTrade_trades]
    refine TradeExact_close p _ htr _ ⟨fun hk => by simp at hk, fun _ => ?_⟩
    rw [hspread]
  · refine ⟨?_, fun hpos => by simp at hpos⟩
    rw [closeTrade_trades]
    refine TradeExact_close p _ htr _ ⟨fun _ => ?_, fun hk => by simp at hk⟩
    rw [hspread]

theorem tryEnter_exact (p : SimParams) (j : ℕ) (b : Bar) (s : SimState)
    (hs : SpreadInv p s) (htr : ∀ t ∈ s.trades, TradeExact p t) :
    (∀ t ∈ (tryEnter p j b s).trades, TradeExact p t) ∧
    SpreadInv p (tryEnter p j b s) := by
  rcases tryEnter_cases p j b s with he | ⟨_, he⟩ <;> rw [he]
  · exact ⟨htr, hs⟩
  · exact checkBarExit_exact p b (enterState p j b s) (by simp) (by simpa using htr)

theorem stepBar_exact (p : SimParams) (j : ℕ) (b : Bar) (s : SimState)
    (hs : SpreadInv p s) (htr : ∀ t ∈ s.trades, TradeExact p t) :
    (∀ t ∈ (stepBar p j b s).trades, TradeExact p t) ∧
    SpreadInv p (stepBar p j b s) := by
  by_cases hp : s.in_position
  · rw [show stepBar p j b s
        = tryEnter p j b (if (gapCheck p j b s).in_position = true
            then checkBarExit p b (gapCheck p j b s) else gapCheck p j b s) from by
      unfold stepBar
      rw [if_pos hp]]
    have hgap := gapCheck_exact p j b s htr
    by_cases hp2 : (gapCheck p j b s).in_position = true
    · rw [if_pos hp2]
      have heq := hgap.2 hp2
      have hcheck := checkBarExit_exact p b (gapCheck p j b s)
        (by rw [heq]; exact hs hp) hgap.1
      exact tryEnter_exact p j b _ hcheck.2 hcheck.1
    · rw [if_neg hp2]
      have hs2 : SpreadInv p (gapCheck p j b s) := fun h => absurd h hp2
      exact tryEnter_exact p j b _ hs2 hgap.1
  · rw [show stepBar p j b s = tryEnter p j b s from by
      unfold stepBar
      rw [if_neg hp]]
    exact tryEnter_exact p j b s hs htr

theorem simLoop_exact (p : SimParams) :
    ∀ (bars : List Bar) (j : ℕ) (s : SimState),
      SpreadInv p s → (∀ t ∈ s.trades, TradeExact p t) →
      (∀ t ∈ (simLoop p j s bars).trades, TradeExact p t) ∧
      SpreadInv p (simLoop p j s bars) := by
  intro bars
  induction bars with
  | nil => intro j s hs htr; exact ⟨htr, hs⟩
  | cons b rest ih =>
    intro j s hs htr
    have hstep := stepBar_exact p j b s hs htr
    exact ih (j + 1) (stepBar p j b s) hstep.2 hstep.1

theorem forceClose_exact (p : SimParams) (c : ℚ) (s : SimState)
    (htr : ∀ t ∈ s.trades, TradeExact p t) :
    ∀ t ∈ (forceClose c s).trades, TradeExact p t := by
  unfold forceClose
  split_ifs with hp hw
  · rw [closeTrade_trades]
    exact TradeExact_close p _ htr _ (TradeExact_of_ne p _ (by simp) (by simp))
  · rw [closeTrade_trades]
    exact TradeExact_close p _ htr _ (TradeExact_of_ne p _ (by simp) (by simp))
  · exact htr

theorem simulate_run_exact (bars : List Bar) (p : SimParams) :
    ∀ t ∈ (simulate_run bars p).trades, TradeExact p t := by
  have hloop := simLoop_exact p bars 0 initState
    (fun h => by simp [initState] at h)
    (fun t ht => absurd ht (by simp [initState]))
  cases hl : bars.getLast? with
  | none =>
    have hred : simulate_run bars p = initState := by
      unfold simulate_run
      rw [hl]
    rw [hred]
    intro t ht
    exact absurd ht (by simp [initState])
  | some lb =>
    have hred : simulate_run bars p = forceClose lb.close (simLoop p 0 initState bars) := by
      unfold simulate_run
      rw [hl]
    rw [hred]
    exact forceClose_exact p lb.close _ hloop.1

/-- C2: every trade closed by the single-level in-bar rule realizes exactly
the nominal percentage minus the proportional exit spread cost of its entry
price: a target-only breach closes at `tp_pct - exit_spread_pct` and a
stop-only breach at `-sl_pct - exit_spread_pct`, with
`exit_spread_pct = (spread/2)/entry_price*100`; in particular the flat
series `flatBars` whose entry bar breaches only the target produces exactly
one winning trade with pnl `tp_pct - exit_spread_pct = 2 - 100/201`. -/
theorem simulate_trades_inbar_exit_pnl :
    (∀ (bars : List Bar) (p : SimParams), ∀ t ∈ (simulate_run bars p).trades,
      (t.kind = ExitKind.tpOnly → t.pnl = p.tp_pct - p.spread / 2 / t.entryPrice * 100) ∧
      (t.kind = ExitKind.slOnly → t.pnl = -p.sl_pct - p.spread / 2 / t.entryPrice * 100)) ∧
    ((simulate_trades flatBars flatParams).wins = 1 ∧
     (simulate_trades flatBars flatParams).losses = 0 ∧
     (simulate_run flatBars flatParams).trades
       = [⟨ExitKind.tpOnly, 2 - 100 / 201, 201 / 2⟩]) := by
  constructor
  · intro bars p t ht
    exact simulate_run_exact bars p t ht
  · refine ⟨?_, ?_, ?_⟩ <;> with_unfolding_all decide

/-- Witness for C2: the single trade of the flat-series scenario satisfies
the exact target-exit pnl equation. -/
theorem simulate_trades_inbar_exit_pnl_witness :
    (⟨ExitKind.tpOnly, 2 - 100 / 201, 201 / 2⟩ : Trade).pnl
      = flatParams.tp_pct - flatParams.spread / 2
        / (⟨ExitKind.tpOnly, 2 - 100 / 201, 201 / 2⟩ : Trade).entryPrice * 100 :=
  (simulate_trades_inbar_exit_pnl.1 flatBars flatParams
    ⟨ExitKind.tpOnly, 2 - 100 / 201, 201 / 2⟩ (by with_unfolding_all decide)).1 rfl

/-! ## C3 — per-trade loss bound -/

theorem pnl_bound_of_tp (sl tp ex : ℚ) (h : 0 ≤ sl + tp) : -(sl + ex) ≤ tp - ex := by
  linarith

theorem pnl_bound_gapUp (e o sl tp ex : ℚ) (he : 0 < e) (hsl : 0 ≤ sl) (htp : 0 ≤ tp)
    (ho : e * (1 + tp / 100) ≤ o) : -(sl + ex) ≤ (o - e) / e * 100 - ex := by
  have h1 : tp ≤ (o - e) / e * 100 := by
    rw [div_mul_eq_mul_div, le_div_iff₀ he]
    nlinarith
  linarith

theorem pnl_bound_force (e c sl ex : ℚ) (he : 0 < e) (hc : e * (1 - sl / 100) < c) :
    -(sl + ex) ≤ (c - e) / e * 100 - ex := by
  have h1 : -sl ≤ (c - e) / e * 100 := by
    rw [div_mul_eq_mul_div, le_div_iff₀ he]
    nlinarith
  linarith

theorem TradeBound_close (p : SimParams) (l : List Trade)
    (htr : ∀ x ∈ l, TradeBound p x) (t : Trade) (ht : TradeBound p t) :
    ∀ x ∈ l ++ [t], TradeBound p x := by
  intro x hx
  rcases List.mem_append.mp hx with h | h
  · exact htr x h
  · have hx2 := List.mem_singleton.mp h
    subst hx2
    exact ht

theorem checkBarExit_bound (p : SimParams) (b : Bar) (s : SimState)
    (hsl : 0 ≤ p.sl_pct) (htp : 0 ≤ p.tp_pct)
    (hpos : s.in_position = true) (hInv : PosInv p s)
    (htr : ∀ t ∈ s.trades, TradeBound p t) :
    (∀ t ∈ (checkBarExit p b s).trades, TradeBound p t) ∧
    PosInv p (checkBarExit p b s) ∧
    ((checkBarExit p b s).in_position = true →
      checkBarExit p b s = s ∧ s.sl_price < b.low) := by
  obtain ⟨hep, hsleq, htpeq, hexeq⟩ := hInv hpos
  rcases checkBarExit_cases p b s with ⟨he, hnsl, _⟩ | he | he | he | he <;> rw [he]
  · exact ⟨htr, hInv, fun _ => ⟨rfl, not_le.mp hnsl⟩⟩
  · refine ⟨?_, fun hp2 => by simp at hp2, fun hp2 => by simp at hp2⟩
    rw [closeTrade_trades]
    refine TradeBound_close p _ htr _ (fun _ => ?_)
    rw [hexeq]
    exact pnl_bound_of_tp _ _ _ (by linarith)
  · refine ⟨?_, fun hp2 => by simp at hp2, fun hp2 => by simp at hp2⟩
    rw [closeTrade_trades]
    refine TradeBound_close p _ htr _ (fun _ => ?_)
    rw [hexeq]
    dsimp only
    linarith
  · refine ⟨?_, fun hp2 => by simp at hp2, fun hp2 => by simp at hp2⟩
    rw [closeTrade_trades]
    refine TradeBound_close p _ htr _ (fun _ => ?_)
    rw [hexeq]
    dsimp only
    linarith
  · refine ⟨?_, fun hp2 => by simp at hp2, fun hp2 => by simp at hp2⟩
    rw [closeTrade_trades]
    refine TradeBound_close p _ htr _ (fun _ => ?_)
    rw [hexeq]
    exact pnl_bound_of_tp _ _ _ (by linarith)

theorem gapCheck_bound (p : SimParams) (j : ℕ) (b : Bar) (s : SimState)
    (hsl : 0 ≤ p.sl_pct) (htp : 0 ≤ p.tp_pct)
    (hpos : s.in_position = true) (hInv : PosInv p s)
    (htr : ∀ t ∈ s.trades, TradeBound p t) :
    (∀ t ∈ (gapCheck p j b s).trades, TradeBound p t) ∧
    ((gapCheck p j b s).in_position = true → gapCheck p j b s = s) := by
  obtain ⟨hep, hsleq, htpeq, hexeq⟩ := hInv hpos
  rcases gapCheck_cases p j b s with he | he | ⟨he, hgap⟩ <;> rw [he]
  · exact ⟨htr, fun _ => rfl⟩
  · refine ⟨?_, fun hp2 => by simp at hp2⟩
    rw [closeTrade_trades]
    exact TradeBound_close p _ htr _ (fun hk => absurd rfl hk)
  · refine ⟨?_, fun hp2 => by simp at hp2⟩
    rw [closeTrade_trades]
    refine TradeBound_close p _ htr _ (fun _ => ?_)
    rw [hexeq]
    exact pnl_bound_gapUp _ _ _ _ _ hep hsl htp (htpeq ▸ hgap)

theorem tryEnter_bound (p : SimParams) (j : ℕ) (b : Bar) (s : SimState)
    (hsl : 0 ≤ p.sl_pct) (htp : 0 ≤ p.tp_pct) (hsp : 0 ≤ p.spread) (hbo : 0 < b.open_)
    (hInv : PosInv p s) (htr : ∀ t ∈ s.trades, TradeBound p t)
    (hsafe : s.in_position = true → s.sl_price < b.low) :
    PosInv p (tryEnter p j b s) ∧
    (∀ t ∈ (tryEnter p j b s).trades, TradeBound p t) ∧
    ((tryEnter p j b s).in_position = true → (tryEnter p j b s).sl_price < b.low) := by
  rcases tryEnter_cases p j b s with he | ⟨_, he⟩ <;> rw [he]
  · exact ⟨hInv, htr, fun hp2 => hsafe hp2⟩
  · have hInv2 : PosInv p (enterState p j b s) := by
      intro _
      refine ⟨?_, by simp, by simp, by simp⟩
      simp only [enterState_entry_price]
      positivity
    have hcheck := checkBarExit_bound p b (enterState p j b s) hsl htp rfl hInv2
      (by simpa using htr)
    refine ⟨hcheck.2.1, hcheck.1, fun hp2 => ?_⟩
    obtain ⟨heq, hlow⟩ := hcheck.2.2 hp2
    rw [heq]
    exact hlow

theorem stepBar_bound (p : SimParams) (j : ℕ) (b : Bar) (s : SimState)
    (hsl : 0 ≤ p.sl_pct) (htp : 0 ≤ p.tp_pct) (hsp : 0 ≤ p.spread) (hbo : 0 < b.open_)
    (hInv : PosInv p s) (htr : ∀ t ∈ s.trades, TradeBound p t) :
    PosInv p (stepBar p j b s) ∧
    (∀ t ∈ (stepBar p j b s).trades, TradeBound p t) ∧
    ((stepBar p j b s).in_position = true → (stepBar p j b s).sl_price < b.low) := by
  by_cases hp : s.in_position
  · rw [show stepBar p j b s
        = tryEnter p j b (if (gapCheck p j b s).in_position = true
            then checkBarExit p b (gapCheck p j b s) else gapCheck p j b s) from by
      unfold stepBar
      rw [if_pos hp]]
    have hgap := gapCheck_bound p j b s hsl htp hp hInv htr
    by_cases hp2 : (gapCheck p j b s).in_position = true
    · rw [if_pos hp2, hgap.2 hp2]
      have hcheck := checkBarExit_bound p b s hsl htp hp hInv htr
      refine tryEnter_bound p j b _ hsl htp hsp hbo hcheck.2.1 hcheck.1 (fun hp3 => ?_)
      obtain ⟨heq, hlow⟩ := hcheck.2.2 hp3
      rw [heq]
      exact hlow
    · rw [if_neg hp2]
      exact tryEnter_bound p j b _ hsl htp hsp hbo (fun h => absurd h hp2) hgap.1
        (fun h => absurd h hp2)
  · rw [show stepBar p j b s = tryEnter p j b s from by
      unfold stepBar
      rw [if_neg hp]]
    exact tryEnter_bound p j b s hsl htp hsp hbo hInv htr (fun h => absurd h hp)

theorem simLoop_bound (p : SimParams)
    (hsl : 0 ≤ p.sl_pct) (htp : 0 ≤ p.tp_pct) (hsp : 0 ≤ p.spread) :
    ∀ (bars : List Bar) (j : ℕ) (s : SimState),
      (∀ b ∈ bars, GoodBar b) → PosInv p s → (∀ t ∈ s.trades, TradeBound p t) →
      PosInv p (simLoop p j s bars) ∧
      (∀ t ∈ (simLoop p j s bars).trades, TradeBound p t) ∧
      (∀ lb, bars.getLast? = some lb → (simLoop p j s bars).in_position = true →
        (simLoop p j s bars).sl_price < lb.low) := by
  intro bars
  induction bars with
  | nil =>
    intro j s _ hInv htr
    exact ⟨hInv, htr, fun lb hlb => by simp at hlb⟩
  | cons b rest ih =>
    intro j s hbars hInv htr
    have hb : GoodBar b := hbars b (List.mem_cons_self b rest)
    have hstep := stepBar_bound p j b s hsl htp hsp hb.1 hInv htr
    cases rest with
    | nil =>
      refine ⟨hstep.1, hstep.2.1, fun lb hlb hp2 => ?_⟩
      have hlb2 : b = lb := by
        simpa using hlb
      subst hlb2
      exact hstep.2.2 hp2
    | cons c t =>
      have hrest : ∀ b' ∈ c :: t, GoodBar b' :=
        fun b' hb' => hbars b' (List.mem_cons_of_mem _ hb')
      have hloop := ih (j + 1) (stepBar p j b s) hrest hstep.1 hstep.2.1
      refine ⟨hloop.1, hloop.2.1, fun lb hlb hp2 => ?_⟩
      rw [List.getLast?_cons_cons] at hlb
      exact hloop.2.2 lb hlb hp2

/-- C3: every trade closed by `simulate_trades` (over well-formed bars with
positive opens, nonnegative grid parameters and spread) realizes a pnl of at
least `-(sl_pct + exit_spread_pct)` — with `exit_spread_pct` the half-spread
as a percentage of that trade's entry price — except for a downward gap fill
(a bar strictly after the entry bar opening at or below the stop), where the
loss may exceed the bound; in particular the forced end-of-data close also
respects the bound. -/
theorem simulate_trades_loss_bounded (bars : List Bar) (p : SimParams)
    (hsl : 0 ≤ p.sl_pct) (htp : 0 ≤ p.tp_pct) (hsp : 0 ≤ p.spread)
    (hbars : ∀ b ∈ bars, GoodBar b) :
    ∀ t ∈ (simulate_run bars p).trades, t.kind ≠ ExitKind.gapDown →
      -(p.sl_pct + p.spread / 2 / t.entryPrice * 100) ≤ t.pnl := by
  cases hl : bars.getLast? with
  | none =>
    have hred : simulate_run bars p = initState := by
      unfold simulate_run
      rw [hl]
    rw [hred]
    intro t ht
    exact absurd ht (by simp [initState])
  | some lb =>
    have hloop := simLoop_bound p hsl htp hsp bars 0 initState hbars
      (fun h => by simp [initState] at h)
      (fun t ht => absurd ht (by simp [initState]))
    have hred : simulate_run bars p = forceClose lb.close (simLoop p 0 initState bars) := by
      unfold simulate_run
      rw [hl]
    rw [hred]
    unfold forceClose
    split_ifs with hp hw
    all_goals try exact hloop.2.1
    all_goals {
      rw [closeTrade_trades]
      refine TradeBound_close p _ hloop.2.1 _ (fun _ => ?_)
      obtain ⟨hep, hsleq, _, hexeq⟩ := hloop.1 hp
      have hlow := hloop.2.2 lb hl hp
      have hclose : (simLoop p 0 initState bars).entry_price * (1 - p.sl_pct / 100)
          < lb.close := by
        have hgood := hbars lb (List.mem_of_getLast?_eq_some hl)
        calc (simLoop p 0 initState bars).entry_price * (1 - p.sl_pct / 100)
            = (simLoop p 0 initState bars).sl_price := hsleq.symm
        _ < lb.low := hlow
        _ ≤ lb.close := hgood.2
      rw [hexeq]
      exact pnl_bound_force _ _ _ _ hep hclose
    }

/-- Witness for C3 at a concrete input: the flat-series target exit
satisfies the loss bound. -/
theorem simulate_trades_loss_bounded_witness :
    -(flatParams.sl_pct + flatParams.spread / 2
        / (⟨ExitKind.tpOnly, 2 - 100 / 201, 201 / 2⟩ : Trade).entryPrice * 100)
      ≤ (⟨ExitKind.tpOnly, 2 - 100 / 201, 201 / 2⟩ : Trade).pnl :=
  simulate_trades_loss_bounded flatBars flatParams (by norm_num [flatParams])
    (by norm_num [flatParams]) (by norm_num [flatParams])
    (by intro b hb; simp [flatBars] at hb; subst hb; exact ⟨by norm_num, by norm_num⟩)
    ⟨ExitKind.tpOnly, 2 - 100 / 201, 201 / 2⟩ (by with_unfolding_all decide)
    (by simp)

/-! ## C4 — the sweep selects the first argmax -/

theorem foldl_best_some {α : Type} (f : α → ℚ) :
    ∀ (l : List α) (b : α),
      l.foldl (fun acc c => if acc.2 < f c then (some c, f c) else acc) (some b, f b)
        = (some (champ f b l), f (champ f b l)) := by
  intro l
  induction l with
  | nil => intro b; rfl
  | cons c rest ih =>
    intro b
    rw [List.foldl_cons]
    dsimp only
    have hch : champ f b (c :: rest) = champ f (if f b < f c then c else b) rest := by
      rw [champ]
    by_cases h : f b < f c
    · rw [if_pos h, ih c, hch, if_pos h]
    · rw [if_neg h, ih b, hch, if_neg h]

theorem foldl_best_none {α : Type} (f : α → ℚ) :
    ∀ (l : List α) (q : ℚ) (b : α), f b ≤ q → (∃ e ∈ l, q < f e) →
      l.foldl (fun acc c => if acc.2 < f c then (some c, f c) else acc) (none, q)
        = (some (champ f b l), f (champ f b l)) := by
  intro l
  induction l with
  | nil =>
    intro q b _ he
    obtain ⟨e, he1, _⟩ := he
    exact absurd he1 (by simp)
  | cons c rest ih =>
    intro q b hb he
    rw [List.foldl_cons]
    dsimp only
    have hch : champ f b (c :: rest) = champ f (if f b < f c then c else b) rest := by
      rw [champ]
    by_cases h : q < f c
    · rw [if_pos h, foldl_best_some f rest c, hch, if_pos (lt_of_le_of_lt hb h)]
    · rw [if_neg h]
      have hb2 : f (if f b < f c then c else b) ≤ q := by
        split_ifs with h2
        · exact not_lt.mp h
        · exact hb
      have he2 : ∃ e ∈ rest, q < f e := by
        obtain ⟨e, he1, he3⟩ := he
        rcases List.mem_cons.mp he1 with rfl | hmem
        · exact absurd he3 h
        · exact ⟨e, hmem, he3⟩
      rw [ih q (if f b < f c then c else b) hb2 he2, hch]

theorem champ_spec {α : Type} (f : α → ℚ) :
    ∀ (l : List α) (b : α),
      (champ f b l = b ∧ ∀ x ∈ l, f x ≤ f b) ∨
      (∃ l1 l2, l = l1 ++ champ f b l :: l2 ∧ f b < f (champ f b l) ∧
        (∀ x ∈ l1, f x < f (champ f b l)) ∧ (∀ x ∈ l2, f x ≤ f (champ f b l))) := by
  intro l
  induction l with
  | nil =>
    intro b
    left
    exact ⟨rfl, by simp⟩
  | cons c rest ih =>
    intro b
    have hch : champ f b (c :: rest) = champ f (if f b < f c then c else b) rest := by
      rw [champ]
    by_cases h : f b < f c
    · rw [if_pos h] at hch
      rcases ih c with ⟨he, hall⟩ | ⟨l1, l2, hsplit, hlt, hl1, hl2⟩
      · right
        refine ⟨[], rest, ?_, ?_, by simp, ?_⟩
        · rw [hch, he]
          rfl
        · rw [hch, he]
          exact h
        · intro x hx
          rw [hch, he]
          exact hall x hx
      · right
        refine ⟨c :: l1, l2, ?_, ?_, ?_, ?_⟩
        · rw [hch, List.cons_append]
          exact congrArg (List.cons c) hsplit
        · rw [hch]
          exact lt_trans h hlt
        · intro x hx
          rcases List.mem_cons.mp hx with rfl | hx2
          · rw [hch]
            exact hlt
          · rw [hch]
            exact hl1 x hx2
        · intro x hx
          rw [hch]
          exact hl2 x hx
    · rw [if_neg h] at hch
      rcases ih b with ⟨he, hall⟩ | ⟨l1, l2, hsplit, hlt, hl1, hl2⟩
      · left
        refine ⟨by rw [hch]; exact he, ?_⟩
        intro x hx
        rcases List.mem_cons.mp hx with rfl | hx2
        · exact not_lt.mp h
        · exact hall x hx2
      · right
        refine ⟨c :: l1, l2, ?_, ?_, ?_, ?_⟩
        · rw [hch, List.cons_append]
          exact congrArg (List.cons c) hsplit
        · rw [hch]
          exact hlt
        · intro x hx
          rcases List.mem_cons.mp hx with rfl | hx2
          · rw [hch]
            exact lt_of_le_of_lt (not_lt.mp h) hlt
          · rw [hch]
            exact hl1 x hx2
        · intro x hx
          rw [hch]
          exact hl2 x hx

/-- C4 (amended): whenever at least one grid combination's simulated
`total_return` beats the `-999999` sentinel that initializes the running
best, `sweep_parameters` returns exactly the first combination, in iteration
order (valid hours ascending, then `SL_GRID`, then `TP_GRID` order),
attaining the maximal `total_return` over the whole grid, together with its
simulation result and the grid size.  (Without that proviso — see the
counterexample — the sweep can return `none` despite valid hours.) -/
theorem sweep_parameters_first_argmax (h1 : List Bar) (spread : ℚ) (symbol : String)
    (m5 : Option (List M5Bar))
    (hex : ∃ c ∈ comboList (get_valid_entry_hours h1 symbol),
      -999999 < (simulate_trades h1 (mkSimParams c spread m5)).total_return) :
    ∃ c l1 l2,
      comboList (get_valid_entry_hours h1 symbol) = l1 ++ c :: l2 ∧
      (∀ x ∈ l1, (simulate_trades h1 (mkSimParams x spread m5)).total_return
        < (simulate_trades h1 (mkSimParams c spread m5)).total_return) ∧
      (∀ x ∈ comboList (get_valid_entry_hours h1 symbol),
        (simulate_trades h1 (mkSimParams x spread m5)).total_return
          ≤ (simulate_trades h1 (mkSimParams c spread m5)).total_return) ∧
      sweep_parameters h1 spread symbol m5
        = some ⟨c, simulate_trades h1 (mkSimParams c spread m5),
            (comboList (get_valid_entry_hours h1 symbol)).length⟩ := by
  obtain ⟨c0, hc0mem, hc0⟩ := hex
  have hvne : get_valid_entry_hours h1 symbol ≠ [] := by
    intro hv
    rw [hv] at hc0mem
    exact absurd hc0mem (by simp [comboList, SL_GRID, TP_GRID])
  rcases hc : comboList (get_valid_entry_hours h1 symbol) with _ | ⟨a, rest⟩
  · rw [hc] at hc0mem
    exact absurd hc0mem (by simp)
  · rw [hc] at hc0mem
    have hfold : (foldBest
        (fun c => (simulate_trades h1 (mkSimParams c spread m5)).total_return)
        (-999999) (a :: rest)).1
        = some (champ (fun c => (simulate_trades h1 (mkSimParams c spread m5)).total_return)
            a rest) := by
      unfold foldBest
      rw [List.foldl_cons]
      dsimp only
      by_cases ha : (-999999 : ℚ)
          < (simulate_trades h1 (mkSimParams a spread m5)).total_return
      · rw [if_pos ha, foldl_best_some]
      · have he2 : ∃ e ∈ rest, (-999999 : ℚ)
            < (simulate_trades h1 (mkSimParams e spread m5)).total_return := by
          rcases List.mem_cons.mp hc0mem with rfl | hmem
          · exact absurd hc0 ha
          · exact ⟨c0, hmem, hc0⟩
        rw [if_neg ha,
          foldl_best_none _ rest (-999999) a (not_lt.mp ha) he2]
    have hsweep : sweep_parameters h1 spread symbol m5
        = some ⟨champ (fun c => (simulate_trades h1 (mkSimParams c spread m5)).total_return)
              a rest,
            simulate_trades h1 (mkSimParams
              (champ (fun c => (simulate_trades h1 (mkSimParams c spread m5)).total_return)
                a rest) spread m5),
            (a :: rest).length⟩ := by
      unfold sweep_parameters
      rw [if_neg hvne, hc]
      dsimp only
      rw [hfold]
    rcases champ_spec (fun c => (simulate_trades h1 (mkSimParams c spread m5)).total_return)
        rest a with ⟨he, hall⟩ | ⟨l1, l2, hsplit, hlt, hl1, hl2⟩
    · refine ⟨a, [], rest, rfl, by simp, ?_, ?_⟩
      · intro x hx
        rcases List.mem_cons.mp hx with rfl | hx2
        · exact le_refl _
        · exact hall x hx2
      · rw [hsweep, he]
    · refine ⟨champ (fun c => (simulate_trades h1 (mkSimParams c spread m5)).total_return)
          a rest, a :: l1, l2, ?_, ?_, ?_, ?_⟩
      · rw [List.cons_append]
        exact congrArg (List.cons a) hsplit
      · intro x hx
        rcases List.mem_cons.mp hx with rfl | hx2
        · exact hlt
        · exact hl1 x hx2
      · intro x hx
        rcases List.mem_cons.mp hx with rfl | hx2
        · exact le_of_lt hlt
        · rw [hsplit] at hx2
          rcases List.mem_append.mp hx2 with hx3 | hx3
          · exact le_of_lt (hl1 x hx3)
          · rcases List.mem_cons.mp hx3 with rfl | hx4
            · exact le_refl _
            · exact hl2 x hx4
      · rw [hsweep]

set_option maxRecDepth 8000 in
set_option maxHeartbeats 1000000 in
/-- Witness for C4 at a concrete input: on the single flat bar every
combination returns 0, which beats the sentinel, so the sweep returns the
first combination of the grid. -/
theorem sweep_parameters_first_argmax_witness :
    ∃ c l1 l2,
      comboList (get_valid_entry_hours oneBar "") = l1 ++ c :: l2 ∧
      (∀ x ∈ l1, (simulate_trades oneBar (mkSimParams x 0 none)).total_return
        < (simulate_trades oneBar (mkSimParams c 0 none)).total_return) ∧
      (∀ x ∈ comboList (get_valid_entry_hours oneBar ""),
        (simulate_trades oneBar (mkSimParams x 0 none)).total_return
          ≤ (simulate_trades oneBar (mkSimParams c 0 none)).total_return) ∧
      sweep_parameters oneBar 0 "" none
        = some ⟨c, simulate_trades oneBar (mkSimParams c 0 none),
            (comboList (get_valid_entry_hours oneBar "")).length⟩ :=
  sweep_parameters_first_argmax oneBar 0 "" none
    ⟨⟨9, 0.3, 0.5⟩, by with_unfolding_all decide, by with_unfolding_all decide⟩

set_option maxRecDepth 100000 in
set_option maxHeartbeats 4000000 in
/-- Counterexample to C4 as stated: `crashBars` has the nonempty valid-hour
set `[9]`, yet `sweep_parameters` returns `none`, because every grid
combination's simulated `total_return` is below the `-999999` sentinel that
initializes the running best (a near-total half-spread loss followed by a
huge upward gap on negative equity), so no combination is ever selected. -/
theorem sweep_parameters_sentinel_counterexample :
    get_valid_entry_hours crashBars "" = [9] ∧
    sweep_parameters crashBars 1000 "" none = none := by
  constructor
  · with_unfolding_all decide
  · with_unfolding_all decide

end MarketScanner
